import Mathlib

/-!
Verification of the querytyper MongoDB query-builder engine
(`src/querytyper/mongo/query.py` and `src/querytyper/mongo/meta.py`).

The engine is embedded shallowly:
* Python runtime values that can appear in a filter mapping are the
  inductive type `Val`; Python `dict`s are ordered association lists
  (insertion order preserved, as in CPython).
* The process-wide shared accumulation buffer (the class attribute
  `MongoQuery._dict`) is threaded explicitly through each operation.
* Fallible constructors return `Except PyErr`.
* Object identity and aliasing of the shared buffer (which the
  snapshot/reset invariant is about) are modelled by a small heap
  machine `MState` whose dict objects live in a list-indexed heap.
-/

set_option autoImplicit false

/-- Python exceptions raised by the engine: `TypeError` and `ValueError`. -/
inductive PyErr where
  | typeError (msg : String)
  | valueError (msg : String)
deriving DecidableEq, Repr

/-- Python runtime values that can occur in a filter mapping: `None`,
booleans, integers, strings, lists and string-keyed dicts (CPython dicts
preserve insertion order, hence the association-list representation). -/
inductive Val where
  | vNone
  | vBool (b : Bool)
  | vInt (n : Int)
  | vStr (s : String)
  | vList (elems : List Val)
  | vDict (entries : List (String × Val))

/-- The declared (unwrapped) static type of a schema field, as recorded in
`QueryField.field_type` by the metaclass. -/
inductive PyType where
  | str
  | int
  | float
  | bool
  | listT (elem : PyType)
  | dictT
deriving DecidableEq, Repr

/-- A Python string-keyed dict, in insertion order. -/
abbrev DictStrAny := List (String × Val)

/-- `d.get(k)` / `d[k]`: first entry with key `k` (reachable dicts have no
duplicate keys, so first = only). -/
def dictLookup {α : Type} (d : List (String × α)) (k : String) : Option α :=
  match d with
  | [] => none
  | (k', v) :: rest => if k' = k then some v else dictLookup rest k

/-- `d[k] = v`: replace the value in place when the key is present
(keeping its position, as CPython does), otherwise append the new entry. -/
def dictSet {α : Type} (d : List (String × α)) (k : String) (v : α) :
    List (String × α) :=
  match d with
  | [] => [(k, v)]
  | (k', v') :: rest =>
    if k' = k then (k, v) :: rest else (k', v') :: dictSet rest k v

/-- `d.update(other)`: set each of `other`'s entries into `d`, in order. -/
def dictUpdate {α : Type} (d other : List (String × α)) : List (String × α) :=
  other.foldl (fun acc kv => dictSet acc kv.1 kv.2) d

/-- `v is None`. -/
def isNone : Val → Bool
  | .vNone => true
  | _ => false

/-- `isinstance(v, collections.abc.Iterable)` for the modelled values:
strings, lists and dicts are iterable, `None`/booleans/integers are not. -/
def isIterable : Val → Bool
  | .vStr _ => true
  | .vList _ => true
  | .vDict _ => true
  | _ => false

/-- `isinstance(v, str)`. -/
def isStr : Val → Bool
  | .vStr _ => true
  | _ => false

/-- The elements produced by iterating a Python value: a list yields its
elements, a dict yields its keys, a string yields its characters. -/
def iterElems : Val → List Val
  | .vList l => l
  | .vDict ps => ps.map (fun p => .vStr p.1)
  | .vStr s => s.toList.map (fun c => .vStr (String.mk [c]))
  | _ => []

/-- `QueryCondition` (query.py lines 49-80): a subclass of `dict`; an
instance is the mapping it was constructed from. -/
structure QueryCondition where
  toDict : DictStrAny

/-- `QueryField` (query.py lines 83-146): a typed handle for one schema
field, holding the field's `name` and declared `field_type`. -/
structure QueryField where
  name : String
  field_type : PyType

/-- `MongoQuery` (query.py lines 14-46): the compiled query object; its
instance attribute `_dict` holds the snapshotted filter mapping. -/
structure MongoQuery where
  qdict : DictStrAny

/-- `QueryField.__eq__` (query.py lines 103-118).  The shared buffer
`MongoQuery._dict` is the explicit argument `classDict`; the method reads
`field = _dict.get(self.name)`, then either registers `other` under the
field's name (when `field is None`), folds `other` onto the iteration
elements of `field` (when `field` is a non-string iterable), or replaces
the entry by the two-element list `[field, other]`.  It returns
`QueryCondition(_dict)` — a condition wrapping the whole updated buffer —
together with the updated buffer. -/
def QueryField.eq (self : QueryField) (other : Val) (classDict : DictStrAny) :
    QueryCondition × DictStrAny :=
  let field := (dictLookup classDict self.name).getD .vNone
  let newDict :=
    if isNone field then dictSet classDict self.name other
    else
      dictSet classDict self.name
        (if isIterable field && !isStr field then .vList (iterElems field ++ [other])
         else .vList [field, other])
  (⟨newDict⟩, newDict)

/-- `QueryField.__gt__` (query.py lines 120-125): `self == {"$gt": other}`. -/
def QueryField.gtOp (self : QueryField) (other : Val) (classDict : DictStrAny) :
    QueryCondition × DictStrAny :=
  self.eq (.vDict [("$gt", other)]) classDict

/-- `QueryField.__ge__` (query.py lines 127-132): `self == {"$gte": other}`. -/
def QueryField.geOp (self : QueryField) (other : Val) (classDict : DictStrAny) :
    QueryCondition × DictStrAny :=
  self.eq (.vDict [("$gte", other)]) classDict

/-- `QueryField.__lt__` (query.py lines 134-139): `self == {"$lt": other}`. -/
def QueryField.ltOp (self : QueryField) (other : Val) (classDict : DictStrAny) :
    QueryCondition × DictStrAny :=
  self.eq (.vDict [("$lt", other)]) classDict

/-- `QueryField.__le__` (query.py lines 141-146): `self == {"$lte": other}`. -/
def QueryField.leOp (self : QueryField) (other : Val) (classDict : DictStrAny) :
    QueryCondition × DictStrAny :=
  self.eq (.vDict [("$lte", other)]) classDict

/-- `QueryField` defines neither `__contains__` nor `__iter__` nor
`__getitem__` (query.py lines 83-146), so a Python membership test
`other in fieldHandle` falls through the whole containment protocol and
raises `TypeError: argument of type 'QueryField' is not supported`,
whatever the declared field type and whatever the operand.  (The
integration test keeps its `"test" in QueryModel.str_field` call
commented out.) -/
def QueryField.containsOp (_self : QueryField) (_other : Val) :
    Except PyErr QueryCondition :=
  .error (.typeError "argument of type QueryField is not iterable")

/-- The right-hand operand of `QueryCondition.__and__` / `__rand__`:
a `QueryCondition` or a `bool` (anything else is outside the annotated
signature and unused by the engine). -/
inductive AndOperand where
  | cond (c : QueryCondition)
  | boolean (b : Bool)

/-- `QueryCondition.__and__` (query.py lines 60-67): when the operand is a
`QueryCondition`, `MongoQuery._dict.update(other)`; in all cases return
`self`. -/
def QueryCondition.andOp (self : QueryCondition) (other : AndOperand)
    (classDict : DictStrAny) : QueryCondition × DictStrAny :=
  match other with
  | .cond c => (self, dictUpdate classDict c.toDict)
  | .boolean _ => (self, classDict)

/-- `QueryCondition.__rand__` (query.py lines 69-76): same body as
`__and__`. -/
def QueryCondition.randOp (self : QueryCondition) (other : AndOperand)
    (classDict : DictStrAny) : QueryCondition × DictStrAny :=
  match other with
  | .cond c => (self, dictUpdate classDict c.toDict)
  | .boolean _ => (self, classDict)

/-- `QueryCondition.__bool__` (query.py lines 78-80): always `False`. -/
def QueryCondition.toBool (_self : QueryCondition) : Bool :=
  false

/-- A positional argument passed to `MongoQuery(...)`: a `QueryCondition`,
a `bool`, or a value of any other type (recorded by its type name). -/
inductive QueryArg where
  | cond (c : QueryCondition)
  | boolean (b : Bool)
  | invalid (typeName : String)

/-- `isinstance(arg, (QueryCondition, bool))`. -/
def QueryArg.isValid : QueryArg → Bool
  | .invalid _ => false
  | _ => true

/-- The argument-checking `for` loop of `MongoQuery.__init__` (query.py
lines 21-25): raises `TypeError` at the first argument that is neither a
`QueryCondition` nor a `bool`. -/
def checkArgs : List QueryArg → Option PyErr
  | [] => none
  | a :: rest =>
    if a.isValid then checkArgs rest
    else some (.typeError
      "MongoQuery argument must be a QueryCondition or a boolean value")

/-- `MongoQuery.__init__` (query.py lines 19-29): first the argument type
check (which raises before anything else happens, leaving the shared
buffer untouched); on success `self._dict = MongoQuery._dict` takes over
the current shared buffer as the instance's snapshot and
`MongoQuery._dict = {}` rebinds the shared buffer to a fresh empty dict.
Returns the constructed query (or the error) together with the new state
of the shared buffer. -/
def MongoQuery.init (args : List QueryArg) (classDict : DictStrAny) :
    Except PyErr MongoQuery × DictStrAny :=
  match checkArgs args with
  | some e => (.error e, classDict)
  | none => (.ok ⟨classDict⟩, [])

/-- `MongoQuery.__del__` (query.py lines 31-34): the destructor rebinds
`self._dict = {}` and also resets the shared class buffer
`MongoQuery._dict = {}`.  Returns the dying instance's final state and
the new (empty) shared buffer. -/
def MongoQuery.delOp (_self : MongoQuery) (_classDict : DictStrAny) :
    MongoQuery × DictStrAny :=
  (⟨[]⟩, [])

/-- `MongoQuery.__or__` (query.py lines 40-46): the method reassigns
`self._dict = {"$or": [self._dict, other._dict]}` and returns `self`, so
the value returned is the left operand with its mapping replaced by the
`$or` mapping. -/
def MongoQuery.orOp (self other : MongoQuery) : MongoQuery :=
  ⟨[("$or", .vList [.vDict self.qdict, .vDict other.qdict])]⟩

/-- The state of the left operand after `a | b`: Python's `__or__` returns
`self` after reassigning `self._dict`, so the post-call left operand is
the very object `MongoQuery.orOp` returns. -/
def MongoQuery.orSelfAfter (self other : MongoQuery) : MongoQuery :=
  self.orOp other

/-- The argument accepted by `exists` (query.py lines 149-157): a
`QueryField`, a raw string, or anything else. -/
inductive FieldArg where
  | qf (f : QueryField)
  | strArg (s : String)
  | other (typeName : String)

/-- `exists` (query.py lines 149-157): builds
`QueryCondition({name: {"$exists": True}})` directly, never touching the
shared buffer (it takes no buffer argument); raises `TypeError` for an
argument that is neither a `QueryField` nor a `str`. -/
def existsOp (field : FieldArg) : Except PyErr QueryCondition :=
  match field with
  | .qf f => .ok ⟨[(f.name, .vDict [("$exists", .vBool true)])]⟩
  | .strArg s => .ok ⟨[(s, .vDict [("$exists", .vBool true)])]⟩
  | .other _ => .error (.typeError "Field must be a QueryField or str")

/-- `regex_query` (query.py lines 160-166): builds
`QueryCondition({name: {"$regex": regex.pattern}})` directly, never
touching the shared buffer. -/
def regexQuery (field : FieldArg) (pattern : String) : QueryCondition :=
  match field with
  | .qf f => ⟨[(f.name, .vDict [("$regex", .vStr pattern)])]⟩
  | .strArg s => ⟨[(s, .vDict [("$regex", .vStr pattern)])]⟩
  | .other s => ⟨[(s, .vDict [("$regex", .vStr pattern)])]⟩

/-- A candidate base class handed to the metaclass: whether it is a
subclass of pydantic's `BaseModel`, and its `__fields__`
(field name together with the unwrapped element type `type_`). -/
structure PyClass where
  isBaseModelSub : Bool
  fields : List (String × PyType)

/-- The mutable state of the metaclass object itself: the `QueryField`
attributes that `setattr(cls, field_name, QueryField(...))` has attached
to it so far. -/
structure MetaState where
  attrs : List (String × QueryField)

/-- The `for field_name, model_field in base_model_cls.__fields__.items()`
loop of the metaclass: `setattr(cls, field_name, QueryField(name=...,
field_type=...))`, one per declared field, onto the existing attribute
set. -/
def attachFields (attrs : List (String × QueryField))
    (fields : List (String × PyType)) : List (String × QueryField) :=
  fields.foldl (fun acc fld => dictSet acc fld.1 ⟨fld.1, fld.2⟩) attrs

/-- `MongoModelMetaclass.__new__` (query.py lines 183-210; meta.py's
`MongoFilterMeta.__new__`, lines 26-53, is textually identical): raises
`TypeError` for more than one base, for zero bases, and for a sole base
that is not a `BaseModel` subclass; otherwise attaches one `QueryField`
per declared field of the base model to the metaclass object `cls` itself
(not to the newly created class) and returns `cls` — so the resulting
attribute set is the metaclass's previous attributes updated with one
handle per field of this base. -/
def metaNew (m : MetaState) (bases : List PyClass) : Except PyErr MetaState :=
  if bases.length > 1 then
    .error (.typeError "MongoModelMetaclass does not support multiple inheritance")
  else
    match bases with
    | [] => .error (.typeError
        "The class with metaclass MongoModelMetaclass requires a base class that inherits from BaseModel")
    | b :: _ =>
      if !b.isBaseModelSub then
        .error (.typeError "The base class must inherit from BaseModel")
      else
        .ok ⟨attachFields m.attrs b.fields⟩

/-! ### Heap model of the shared buffer

`MongoQuery._dict` is a class attribute pointing at a dict object;
`QueryField.__eq__` and `QueryCondition.__and__` mutate that object in
place, while `MongoQuery.__init__` transfers the pointer into the new
instance (`self._dict = MongoQuery._dict`) and rebinds the class
attribute to a fresh empty dict.  The snapshot/aliasing discipline is
modelled by a heap of dict objects addressed by allocation index. -/

/-- Read the dict object at heap address `r` (empty for a dangling ref). -/
def heapGet : List DictStrAny → Nat → DictStrAny
  | [], _ => []
  | b :: _, 0 => b
  | _ :: rest, n + 1 => heapGet rest n

/-- Overwrite the dict object at heap address `r` (in-place mutation of
one dict object; no-op for a dangling ref). -/
def heapSet : List DictStrAny → Nat → DictStrAny → List DictStrAny
  | [], _, _ => []
  | _ :: rest, 0, v => v :: rest
  | b :: rest, n + 1, v => b :: heapSet rest n v

/-- A machine state: every dict object allocated so far, the address the
class attribute `MongoQuery._dict` is currently bound to, and the
addresses snapshotted by the queries constructed so far (in construction
order — each `MongoQuery` instance's `self._dict`). -/
structure MState where
  heap : List DictStrAny
  buf : Nat
  queries : List Nat

/-- The engine operations that can touch the shared buffer: a field
comparison (`__eq__` and the ordering operators that delegate to it), a
condition conjunction, a successful `MongoQuery` construction, and a
`MongoQuery` destruction. -/
inductive MOp where
  | fieldEq (f : QueryField) (v : Val)
  | condAnd (c : QueryCondition)
  | newQuery
  | delQuery

/-- The comparison and conjunction operations: the ones that merely
accumulate into the buffer (no construction or destruction). -/
def MOp.isAccum : MOp → Bool
  | .fieldEq _ _ => true
  | .condAnd _ => true
  | _ => false

/-- Field names an operation writes: the compared field's name for a
comparison, the merged condition's keys for a conjunction. -/
def MOp.touched : MOp → List String
  | .fieldEq f _ => [f.name]
  | .condAnd c => c.toDict.map Prod.fst
  | _ => []

/-- One step of the engine, on the heap model:
* `fieldEq`/`condAnd` mutate the dict object `MongoQuery._dict` points at,
  exactly as `QueryField.eq`/`dictUpdate` compute;
* `newQuery` records the current buffer address as the new instance's
  snapshot, allocates a fresh empty dict and rebinds the class attribute
  to it (`self._dict = MongoQuery._dict; MongoQuery._dict = {}`);
* `delQuery` rebinds the class attribute to a fresh empty dict
  (`MongoQuery._dict = {}` in `__del__`). -/
def MState.step (s : MState) : MOp → MState
  | .fieldEq f v =>
    { s with heap := heapSet s.heap s.buf ((f.eq v (heapGet s.heap s.buf)).2) }
  | .condAnd c =>
    { s with heap := heapSet s.heap s.buf (dictUpdate (heapGet s.heap s.buf) c.toDict) }
  | .newQuery =>
    { heap := s.heap ++ [[]], buf := s.heap.length, queries := s.queries ++ [s.buf] }
  | .delQuery =>
    { heap := s.heap ++ [[]], buf := s.heap.length, queries := s.queries }

/-- Run a sequence of engine operations. -/
def MState.run (s : MState) : List MOp → MState
  | [] => s
  | o :: rest => (s.step o).run rest

/-- The content of the shared accumulation buffer in a machine state. -/
def MState.buffer (s : MState) : DictStrAny :=
  heapGet s.heap s.buf

/-- The machine's reachable-state invariant: the class attribute points
into the heap, and every constructed query's snapshot was allocated
before the current buffer's dict. -/
def MInv (s : MState) : Prop :=
  s.buf < s.heap.length ∧ ∀ r ∈ s.queries, r < s.buf

/-- The initial state: `MongoQuery._dict = {}` at class-creation time,
no queries constructed. -/
def MState.start : MState :=
  ⟨[[]], 0, []⟩

/-- The pure effect of an accumulating operation on the buffer content. -/
def bufApply : MOp → DictStrAny → DictStrAny
  | .fieldEq f v => fun d => (QueryField.eq f v d).2
  | .condAnd c => fun d => dictUpdate d c.toDict
  | .newQuery => id
  | .delQuery => id

/-- The pure effect of a list of accumulating operations. -/
def bufApplyList : List MOp → DictStrAny → DictStrAny
  | [], d => d
  | o :: rest, d => bufApplyList rest (bufApply o d)

/-- All field names a list of operations writes. -/
def touchedAll : List MOp → List String
  | [] => []
  | o :: rest => o.touched ++ touchedAll rest

/-- A value whose buffer entry the fold rule of `QueryField.__eq__` treats
as a single existing value: not `None` (which `dict.get` cannot tell from
absence) and not a non-string iterable (whose iteration elements the fold
spreads). -/
def foldsAsScalar : Val → Bool
  | .vNone => false
  | .vList _ => false
  | .vDict _ => false
  | _ => true

/-- Scenario A: schema fields `name : str` and `age : int`; the value of
`MongoQuery((F.name == "John") & (F.age >= 10))`, evaluated from an empty
shared buffer in Python evaluation order: `F.name == "John"` first,
`F.age >= 10` second, then `&` on the two conditions, then the
constructor. -/
def scenarioA : Except PyErr MongoQuery × DictStrAny :=
  let fName : QueryField := ⟨"name", .str⟩
  let fAge : QueryField := ⟨"age", .int⟩
  let r1 := fName.eq (.vStr "John") []
  let r2 := fAge.geOp (.vInt 10) r1.2
  let r3 := QueryCondition.andOp r1.1 (.cond r2.1) r2.2
  MongoQuery.init [.cond r3.1] r3.2

/-! ### Association-list dictionary lemmas -/

theorem dictLookup_dictSet_eq {α : Type} (d : List (String × α)) (k : String) (v : α) :
    dictLookup (dictSet d k v) k = some v := by
  induction d with
  | nil => simp [dictSet, dictLookup]
  | cons hd tl ih =>
    obtain ⟨k', v'⟩ := hd
    by_cases h : k' = k
    · simp [dictSet, dictLookup, h]
    · simp [dictSet, dictLookup, h, ih]

theorem dictLookup_dictSet_ne {α : Type} (d : List (String × α)) {k' k : String} (v : α)
    (h : k' ≠ k) : dictLookup (dictSet d k' v) k = dictLookup d k := by
  induction d with
  | nil => simp [dictSet, dictLookup, h]
  | cons hd tl ih =>
    obtain ⟨k'', v''⟩ := hd
    by_cases h2 : k'' = k'
    · subst h2
      simp only [dictSet, if_pos rfl]
      simp [dictLookup, h, fun he : k'' = k => h he]
    · simp only [dictSet, if_neg h2, dictLookup]
      by_cases h3 : k'' = k
      · simp [h3]
      · simp [h3, ih]

theorem dictSet_ne_nil {α : Type} (d : List (String × α)) (k : String) (v : α) :
    dictSet d k v ≠ [] := by
  cases d with
  | nil => simp [dictSet]
  | cons hd tl =>
    obtain ⟨k', v'⟩ := hd
    by_cases h : k' = k <;> simp [dictSet, h]

theorem dictLookup_dictSet_cases {α : Type} (d : List (String × α)) (k' k : String) (v : α)
    (h : dictLookup (dictSet d k' v) k ≠ none) :
    k = k' ∨ dictLookup d k ≠ none := by
  by_cases hk : k = k'
  · exact Or.inl hk
  · right
    rwa [dictLookup_dictSet_ne d v (fun he => hk he.symm)] at h

theorem dictLookup_dictUpdate_not_mem {α : Type} (other : List (String × α)) (d : List (String × α))
    (k : String) (h : dictLookup other k = none) :
    dictLookup (dictUpdate d other) k = dictLookup d k := by
  induction other generalizing d with
  | nil => rfl
  | cons hd tl ih =>
    obtain ⟨k', v'⟩ := hd
    by_cases hk : k' = k
    · simp [dictLookup, hk] at h
    · simp only [dictLookup, if_neg hk] at h
      show dictLookup (dictUpdate (dictSet d k' v') tl) k = dictLookup d k
      rw [ih (dictSet d k' v') h, dictLookup_dictSet_ne d v' hk]

theorem dictLookup_dictUpdate_mem {α : Type} (other : List (String × α)) (d : List (String × α))
    (k : String) (v : α) (hnd : (other.map Prod.fst).Nodup)
    (h : dictLookup other k = some v) :
    dictLookup (dictUpdate d other) k = some v := by
  induction other generalizing d with
  | nil => simp [dictLookup] at h
  | cons hd tl ih =>
    obtain ⟨k', v'⟩ := hd
    simp only [List.map, List.nodup_cons] at hnd
    by_cases hk : k' = k
    · simp only [dictLookup, if_pos hk] at h
      subst hk
      have htl : dictLookup tl k' = none := by
        clear ih h
        induction tl with
        | nil => rfl
        | cons hd2 tl2 ih2 =>
          obtain ⟨k2, v2⟩ := hd2
          simp only [List.map, List.mem_cons, List.nodup_cons] at hnd
          have hne : k2 ≠ k' := by
            intro he
            exact hnd.1 (Or.inl he.symm)
          simp only [dictLookup, if_neg hne]
          exact ih2 ⟨fun hm => hnd.1 (Or.inr hm), hnd.2.2⟩
      have hv : v' = v := by injection h
      show dictLookup (dictUpdate (dictSet d k' v') tl) k' = some v
      rw [dictLookup_dictUpdate_not_mem tl (dictSet d k' v') k' htl,
        dictLookup_dictSet_eq d k' v', hv]
    · simp only [dictLookup, if_neg hk] at h
      exact ih (dictSet d k' v') hnd.2 h

theorem dictUpdate_ne_nil {α : Type} (other : List (String × α)) (d : List (String × α))
    (h : d ≠ []) : dictUpdate d other ≠ [] := by
  induction other generalizing d with
  | nil => exact h
  | cons hd tl ih =>
    exact ih (dictSet d hd.1 hd.2) (dictSet_ne_nil d hd.1 hd.2)

theorem dictLookup_dictUpdate_cases {α : Type} (other : List (String × α)) (d : List (String × α))
    (k : String) (h : dictLookup (dictUpdate d other) k ≠ none) :
    dictLookup d k ≠ none ∨ k ∈ other.map Prod.fst := by
  induction other generalizing d with
  | nil => exact Or.inl h
  | cons hd tl ih =>
    obtain ⟨k', v'⟩ := hd
    rcases ih (dictSet d k' v') h with h2 | h2
    · rcases dictLookup_dictSet_cases d k' k v' h2 with h3 | h3
      · exact Or.inr (by simp [h3])
      · exact Or.inl h3
    · exact Or.inr (by simp [h2])

/-! ### Heap lemmas -/

theorem heapSet_length (l : List DictStrAny) (n : Nat) (v : DictStrAny) :
    (heapSet l n v).length = l.length := by
  induction l generalizing n with
  | nil => rfl
  | cons hd tl ih =>
    cases n with
    | zero => rfl
    | succ m => simp [heapSet, ih]

theorem heapGet_heapSet_eq (l : List DictStrAny) (n : Nat) (v : DictStrAny)
    (h : n < l.length) : heapGet (heapSet l n v) n = v := by
  induction l generalizing n with
  | nil => simp at h
  | cons hd tl ih =>
    cases n with
    | zero => rfl
    | succ m =>
      simp only [List.length_cons, Nat.succ_lt_succ_iff] at h
      exact ih m h

theorem heapGet_heapSet_ne (l : List DictStrAny) (n m : Nat) (v : DictStrAny)
    (h : n ≠ m) : heapGet (heapSet l n v) m = heapGet l m := by
  induction l generalizing n m with
  | nil => rfl
  | cons hd tl ih =>
    cases n with
    | zero =>
      cases m with
      | zero => exact absurd rfl h
      | succ m' => rfl
    | succ n' =>
      cases m with
      | zero => rfl
      | succ m' => exact ih n' m' (fun he => h (by rw [he]))

theorem heapGet_append_lt (l l' : List DictStrAny) (n : Nat) (h : n < l.length) :
    heapGet (l ++ l') n = heapGet l n := by
  induction l generalizing n with
  | nil => simp at h
  | cons hd tl ih =>
    cases n with
    | zero => rfl
    | succ m =>
      simp only [List.length_cons, Nat.succ_lt_succ_iff] at h
      exact ih m h

theorem heapGet_append_len (l : List DictStrAny) (v : DictStrAny) :
    heapGet (l ++ [v]) l.length = v := by
  induction l with
  | nil => rfl
  | cons hd tl ih => exact ih

/-! ### Machine lemmas -/

theorem MInv_step (s : MState) (o : MOp) (h : MInv s) : MInv (s.step o) := by
  obtain ⟨h1, h2⟩ := h
  cases o with
  | fieldEq f v =>
    exact ⟨by simpa [MState.step, heapSet_length] using h1, h2⟩
  | condAnd c =>
    exact ⟨by simpa [MState.step, heapSet_length] using h1, h2⟩
  | newQuery =>
    refine ⟨by simp [MState.step], ?_⟩
    intro r hr
    simp only [MState.step, List.mem_append, List.mem_singleton] at hr
    rcases hr with hr | hr
    · exact lt_trans (h2 r hr) h1
    · exact hr ▸ h1
  | delQuery =>
    refine ⟨by simp [MState.step], ?_⟩
    intro r hr
    exact lt_trans (h2 r hr) h1

theorem step_queries_mem (s : MState) (o : MOp) (r : Nat) (h : r ∈ s.queries) :
    r ∈ (s.step o).queries := by
  cases o <;> simp [MState.step, h]

theorem step_buf_le (s : MState) (o : MOp) (h : MInv s) : s.buf ≤ (s.step o).buf := by
  cases o with
  | fieldEq f v => exact le_refl _
  | condAnd c => exact le_refl _
  | newQuery => exact le_of_lt h.1
  | delQuery => exact le_of_lt h.1

theorem step_frame (s : MState) (o : MOp) (r : Nat) (h : MInv s) (hr : r < s.buf) :
    heapGet (s.step o).heap r = heapGet s.heap r := by
  have hlt : r < s.heap.length := lt_trans hr h.1
  cases o with
  | fieldEq f v => exact heapGet_heapSet_ne _ _ _ _ (fun he => absurd (he ▸ hr) (lt_irrefl r))
  | condAnd c => exact heapGet_heapSet_ne _ _ _ _ (fun he => absurd (he ▸ hr) (lt_irrefl r))
  | newQuery => exact heapGet_append_lt _ _ _ hlt
  | delQuery => exact heapGet_append_lt _ _ _ hlt

theorem run_frame (s : MState) (ops : List MOp) (r : Nat) (h : MInv s) (hr : r < s.buf) :
    heapGet (s.run ops).heap r = heapGet s.heap r := by
  induction ops generalizing s with
  | nil => rfl
  | cons o rest ih =>
    show heapGet ((s.step o).run rest).heap r = heapGet s.heap r
    rw [ih (s.step o) (MInv_step s o h) (lt_of_lt_of_le hr (step_buf_le s o h)),
      step_frame s o r h hr]

theorem step_accum (s : MState) (o : MOp) (h : MInv s) (ha : o.isAccum = true) :
    (s.step o).buf = s.buf ∧ (s.step o).buffer = bufApply o s.buffer := by
  cases o with
  | fieldEq f v =>
    exact ⟨rfl, by simp [MState.step, MState.buffer, bufApply, heapGet_heapSet_eq _ _ _ h.1]⟩
  | condAnd c =>
    exact ⟨rfl, by simp [MState.step, MState.buffer, bufApply, heapGet_heapSet_eq _ _ _ h.1]⟩
  | newQuery => simp [MOp.isAccum] at ha
  | delQuery => simp [MOp.isAccum] at ha

theorem run_accum (s : MState) (ops : List MOp) (h : MInv s)
    (ha : ∀ o ∈ ops, o.isAccum = true) :
    (s.run ops).buf = s.buf ∧ (s.run ops).buffer = bufApplyList ops s.buffer := by
  induction ops generalizing s with
  | nil => exact ⟨rfl, rfl⟩
  | cons o rest ih =>
    have ho := ha o (List.mem_cons_self o rest)
    have hrest : ∀ o' ∈ rest, o'.isAccum = true := fun o' ho' => ha o' (List.mem_cons_of_mem o ho')
    have hstep := step_accum s o h ho
    have hinv := MInv_step s o h
    obtain ⟨ihb, ihc⟩ := ih (s.step o) hinv hrest
    refine ⟨by rw [show (s.run (o :: rest)) = (s.step o).run rest from rfl, ihb, hstep.1], ?_⟩
    show ((s.step o).run rest).buffer = bufApplyList rest (bufApply o s.buffer)
    rw [ihc, hstep.2]

/-- Whatever branch `QueryField.__eq__` takes, its effect on the buffer is
to set the compared field's key to some value. -/
theorem QueryField.eq_snd_shape (f : QueryField) (v : Val) (d : DictStrAny) :
    ∃ w, (QueryField.eq f v d).2 = dictSet d f.name w := by
  unfold QueryField.eq
  by_cases hcase : isNone ((dictLookup d f.name).getD Val.vNone) = true
  · exact ⟨v, by simp [hcase]⟩
  · by_cases hit : (isIterable ((dictLookup d f.name).getD Val.vNone)
        && !isStr ((dictLookup d f.name).getD Val.vNone)) = true
    · exact ⟨.vList (iterElems ((dictLookup d f.name).getD Val.vNone) ++ [v]),
        by simp [hcase, hit]⟩
    · exact ⟨.vList [(dictLookup d f.name).getD Val.vNone, v],
        by simp [hcase, hit]⟩

theorem bufApply_keys (o : MOp) (d : DictStrAny) (k : String)
    (hk : dictLookup (bufApply o d) k ≠ none) :
    dictLookup d k ≠ none ∨ k ∈ o.touched := by
  cases o with
  | fieldEq f v =>
    obtain ⟨w, hw⟩ := QueryField.eq_snd_shape f v d
    simp only [bufApply, hw] at hk
    rcases dictLookup_dictSet_cases d f.name k w hk with h | h
    · exact Or.inr (by simp [MOp.touched, h])
    · exact Or.inl h
  | condAnd c =>
    simp only [bufApply] at hk
    rcases dictLookup_dictUpdate_cases c.toDict d k hk with h | h
    · exact Or.inl h
    · exact Or.inr (by simpa [MOp.touched] using h)
  | newQuery => exact Or.inl hk
  | delQuery => exact Or.inl hk

theorem bufApplyList_keys (ops : List MOp) (d : DictStrAny) (k : String)
    (hk : dictLookup (bufApplyList ops d) k ≠ none) :
    dictLookup d k ≠ none ∨ k ∈ touchedAll ops := by
  induction ops generalizing d with
  | nil => exact Or.inl hk
  | cons o rest ih =>
    rcases ih (bufApply o d) hk with h | h
    · rcases bufApply_keys o d k h with h2 | h2
      · exact Or.inl h2
      · exact Or.inr (by simp [touchedAll, h2])
    · exact Or.inr (by simp [touchedAll, h])

/-! ### Argument-check lemmas for `MongoQuery.__init__` -/

theorem checkArgs_of_invalid (args : List QueryArg) (t : String)
    (h : QueryArg.invalid t ∈ args) :
    checkArgs args =
      some (.typeError "MongoQuery argument must be a QueryCondition or a boolean value") := by
  induction args with
  | nil => simp at h
  | cons a rest ih =>
    rcases List.mem_cons.mp h with h1 | h1
    · rw [← h1]
      rfl
    · by_cases hv : a.isValid = true
      · simp only [checkArgs, if_pos hv]
        exact ih h1
      · cases a with
        | cond c => simp [QueryArg.isValid] at hv
        | boolean b => simp [QueryArg.isValid] at hv
        | invalid s => rfl

theorem checkArgs_of_valid (args : List QueryArg)
    (h : ∀ a ∈ args, a.isValid = true) : checkArgs args = none := by
  induction args with
  | nil => rfl
  | cons a rest ih =>
    simp only [checkArgs, if_pos (h a (List.mem_cons_self a rest))]
    exact ih (fun a' ha' => h a' (List.mem_cons_of_mem a ha'))

/-! ### Claim theorems -/

/-- C1: in scenario A (`{name: str, age: int}`,
`MongoQuery((F.name == "John") & (F.age >= 10))` in one accumulation
cycle) the query's mapping is exactly
`{"name": "John", "age": {"$gte": 10}}`; in general an equality on a
field absent from the buffer registers `{name: operand}` into it, and
each ordering operator is equality with operand `{"$gt": v}`,
`{"$gte": v}`, `{"$lt": v}`, `{"$lte": v}` respectively. -/
theorem eq_registers_and_ordering_delegates (f : QueryField) (v : Val) (b : DictStrAny)
    (h : dictLookup b f.name = none) :
    scenarioA =
      (.ok ⟨[("name", .vStr "John"), ("age", .vDict [("$gte", .vInt 10)])]⟩, [])
    ∧ (QueryField.eq f v b).2 = dictSet b f.name v
    ∧ QueryField.gtOp f v b = QueryField.eq f (.vDict [("$gt", v)]) b
    ∧ QueryField.geOp f v b = QueryField.eq f (.vDict [("$gte", v)]) b
    ∧ QueryField.ltOp f v b = QueryField.eq f (.vDict [("$lt", v)]) b
    ∧ QueryField.leOp f v b = QueryField.eq f (.vDict [("$lte", v)]) b := by
  refine ⟨rfl, ?_, rfl, rfl, rfl, rfl⟩
  simp [QueryField.eq, h, isNone]

/-- Witness for C1 at the field `name : str`, operand `"x"` and the empty
buffer. -/
theorem eq_registers_and_ordering_delegates_witness :
    dictLookup ([] : DictStrAny) "name" = none
    ∧ (QueryField.eq ⟨"name", .str⟩ (.vStr "x") []).2 = dictSet [] "name" (.vStr "x") :=
  ⟨rfl, (eq_registers_and_ordering_delegates ⟨"name", .str⟩ (.vStr "x") [] rfl).2.1⟩

/-- C8: `c & d` with both conditions merges `d`'s entries into the shared
buffer last-write-wins per key, with no array fold, and returns the left
operand `c`; the right-conjunction `__rand__` has the same body.  The
`Nodup` hypothesis only states that `d` is a Python dict (dicts cannot
carry duplicate keys), i.e. that the association list represents one. -/
theorem cond_and_merges_lastwrite (c d : QueryCondition) (b : DictStrAny)
    (hnd : (d.toDict.map Prod.fst).Nodup) :
    QueryCondition.andOp c (.cond d) b = (c, dictUpdate b d.toDict)
    ∧ (∀ k v, dictLookup d.toDict k = some v →
        dictLookup (QueryCondition.andOp c (.cond d) b).2 k = some v)
    ∧ (∀ k, dictLookup d.toDict k = none →
        dictLookup (QueryCondition.andOp c (.cond d) b).2 k = dictLookup b k)
    ∧ (∀ other, QueryCondition.randOp c other b = QueryCondition.andOp c other b) := by
  refine ⟨rfl, ?_, ?_, ?_⟩
  · intro k v hv
    exact dictLookup_dictUpdate_mem d.toDict b k v hnd hv
  · intro k hk
    exact dictLookup_dictUpdate_not_mem d.toDict b k hk
  · intro other
    cases other <;> rfl

/-- Witness for C8: merging `{"a": 1}` into a buffer where `"a"` was `0`
overwrites it to `1` (last-write-wins, no fold). -/
theorem cond_and_merges_lastwrite_witness :
    (([("a", Val.vInt 1)].map Prod.fst).Nodup : Prop)
    ∧ dictLookup
        (QueryCondition.andOp ⟨[]⟩ (.cond ⟨[("a", Val.vInt 1)]⟩)
          [("a", Val.vInt 0), ("b", Val.vInt 2)]).2 "a" = some (Val.vInt 1) :=
  ⟨by simp,
    (cond_and_merges_lastwrite ⟨[]⟩ ⟨[("a", Val.vInt 1)]⟩
      [("a", Val.vInt 0), ("b", Val.vInt 2)] (by simp)).2.1 "a" (Val.vInt 1) rfl⟩

/-- C9: for every condition `c`, `bool(c)` is `False` whatever `c`'s
content, and conjunction with the boolean literal `True` on either side
returns `c` itself and leaves the shared buffer untouched. -/
theorem cond_bool_false_and_identity (c : QueryCondition) (b : DictStrAny) :
    QueryCondition.toBool c = false
    ∧ QueryCondition.andOp c (.boolean true) b = (c, b)
    ∧ QueryCondition.randOp c (.boolean true) b = (c, b) :=
  ⟨rfl, rfl, rfl⟩

/-- C10: a `MongoQuery` construction with an argument that is neither a
`QueryCondition` nor a `bool` raises its `TypeError` before the buffer is
snapshotted or cleared: the shared buffer is left exactly as it was, and
the accumulated entries appear in the next successful construction. -/
theorem init_error_preserves_buffer (args : List QueryArg) (b : DictStrAny) (t : String)
    (h : QueryArg.invalid t ∈ args) :
    (MongoQuery.init args b).2 = b
    ∧ (MongoQuery.init args b).1 =
        .error (.typeError "MongoQuery argument must be a QueryCondition or a boolean value")
    ∧ (∀ args2, (∀ a ∈ args2, a.isValid = true) →
        MongoQuery.init args2 b = (.ok ⟨b⟩, [])) := by
  have hc := checkArgs_of_invalid args t h
  refine ⟨by simp [MongoQuery.init, hc], by simp [MongoQuery.init, hc], ?_⟩
  intro args2 h2
  simp [MongoQuery.init, checkArgs_of_valid args2 h2]

/-- C2 counterexample: two failures of the universally quantified fold
rule.  (i) `v1 = None`, `v2 = 1`: the second comparison silently
overwrites, leaving `{f: 1}`, not `{f: [None, 1]}`.  (ii) two ordering
comparisons `f >= 10` then `f >= 20` (so `v1 = {"$gte": 10}`,
`v2 = {"$gte": 20}`): the existing dict entry is iterable, so the fold
spreads its keys, leaving `{f: ["$gte", {"$gte": 20}]}`, not
`{f: [v1, v2]}`. -/
theorem second_comparison_fold_counterexample :
    (Val.vNone ≠ Val.vInt 1
      ∧ (QueryField.eq ⟨"opt", .str⟩ (.vInt 1)
          ((QueryField.eq ⟨"opt", .str⟩ .vNone []).2)).2 = [("opt", Val.vInt 1)])
    ∧ ((QueryField.geOp ⟨"age", .int⟩ (.vInt 20)
          ((QueryField.geOp ⟨"age", .int⟩ (.vInt 10) []).2)).2
        = [("age", Val.vList [Val.vStr "$gte", Val.vDict [("$gte", Val.vInt 20)]])]
      ∧ [("age", Val.vList [Val.vStr "$gte", Val.vDict [("$gte", Val.vInt 20)]])]
        ≠ [("age", Val.vList [Val.vDict [("$gte", Val.vInt 10)],
            Val.vDict [("$gte", Val.vInt 20)]])]) :=
  ⟨⟨by simp, rfl⟩, rfl, by simp⟩

/-- C2 amended: the fold `f → [v1, v2]` (and `[v1, v2, v3]` after a third
comparison) holds when the first registered value `v1` is a scalar in the
sense of `foldsAsScalar` — not `None` and not a non-string iterable;
otherwise the entry is an append onto `v1`'s iteration elements (or, for
`None`, a silent overwrite), as the counterexample shows. -/
theorem second_comparison_folds (f : QueryField) (v1 v2 v3 : Val)
    (h1 : foldsAsScalar v1 = true) (hne : v1 ≠ v2) :
    (QueryField.eq f v2 ((QueryField.eq f v1 []).2)).2 = [(f.name, .vList [v1, v2])]
    ∧ (QueryField.eq f v3 ((QueryField.eq f v2 ((QueryField.eq f v1 []).2)).2)).2
        = [(f.name, .vList [v1, v2, v3])] := by
  cases v1 with
  | vNone => simp [foldsAsScalar] at h1
  | vList l => simp [foldsAsScalar] at h1
  | vDict d => simp [foldsAsScalar] at h1
  | vBool b =>
    constructor <;>
      simp [QueryField.eq, dictLookup, dictSet, isNone, isIterable, isStr, iterElems]
  | vInt n =>
    constructor <;>
      simp [QueryField.eq, dictLookup, dictSet, isNone, isIterable, isStr, iterElems]
  | vStr s =>
    constructor <;>
      simp [QueryField.eq, dictLookup, dictSet, isNone, isIterable, isStr, iterElems]

/-- Witness for the amended C2 at `f == "x"`, `f == "y"`, `f == "z"`. -/
theorem second_comparison_folds_witness :
    foldsAsScalar (Val.vStr "x") = true
    ∧ (QueryField.eq ⟨"a", .str⟩ (.vStr "y")
        ((QueryField.eq ⟨"a", .str⟩ (.vStr "x") []).2)).2
      = [("a", Val.vList [Val.vStr "x", Val.vStr "y"])] :=
  ⟨rfl, (second_comparison_folds ⟨"a", .str⟩ (.vStr "x") (.vStr "y") (.vStr "z")
    rfl (by simp)).1⟩

/-- C3 counterexample: `"test" in F.str_field` on a string-typed field
does not produce the condition `{"str_field": {"$regex": "test"}}` — it
raises `TypeError`, because `QueryField` implements no containment
protocol at all. -/
theorem membership_regex_counterexample :
    QueryField.containsOp ⟨"str_field", .str⟩ (.vStr "test")
      = .error (.typeError "argument of type QueryField is not iterable")
    ∧ QueryField.containsOp ⟨"str_field", .str⟩ (.vStr "test")
      ≠ .ok ⟨[("str_field", .vDict [("$regex", .vStr "test")])]⟩ :=
  ⟨rfl, by simp [QueryField.containsOp]⟩

/-- C3 amended: a membership test with a field handle as the
container-like receiver raises a type error regardless of the field's
declared type and of the operand, because `QueryField` defines neither
`__contains__` nor `__iter__` nor `__getitem__`; the regex success path
does not exist in the code. -/
theorem membership_always_type_error (f : QueryField) (v : Val) :
    QueryField.containsOp f v
      = .error (.typeError "argument of type QueryField is not iterable") :=
  rfl

/-- C5 counterexample: after `q1 | q2` the left operand `q1` no longer
holds its snapshot `{"x": 1}` — `__or__` reassigned `q1._dict` to the
`$or` mapping and returned `q1` itself, so the operand is modified and no
new query is allocated. -/
theorem or_mutates_left_counterexample :
    (MongoQuery.orSelfAfter ⟨[("x", Val.vInt 1)]⟩ ⟨[("y", Val.vInt 2)]⟩).qdict
      = [("$or", Val.vList [Val.vDict [("x", Val.vInt 1)],
          Val.vDict [("y", Val.vInt 2)]])]
    ∧ (MongoQuery.orSelfAfter ⟨[("x", Val.vInt 1)]⟩ ⟨[("y", Val.vInt 2)]⟩).qdict
      ≠ [("x", Val.vInt 1)] :=
  ⟨rfl, by simp [MongoQuery.orSelfAfter, MongoQuery.orOp]⟩

/-- C5 amended: `queryA | queryB` yields a query whose content is exactly
`{"$or": [dict(queryA), dict(queryB)]}`, the operands' prior mappings
nested whole rather than merged key-by-key — but the returned query is
the left operand itself, its mapping reassigned in place (the right
operand is untouched). -/
theorem or_content_and_returns_self (a b : MongoQuery) :
    (MongoQuery.orOp a b).qdict
      = [("$or", Val.vList [Val.vDict a.qdict, Val.vDict b.qdict])]
    ∧ MongoQuery.orSelfAfter a b = MongoQuery.orOp a b :=
  ⟨rfl, rfl⟩

/-- C6 counterexample: destroying a `MongoQuery` also resets the shared
accumulation buffer to empty (`MongoQuery._dict = {}` in `__del__`), so
Query construction is not the only buffer-clearing operation. -/
theorem del_clears_buffer_counterexample :
    (MongoQuery.delOp ⟨[]⟩ [("a", Val.vInt 1)]).2 = []
    ∧ ([("a", Val.vInt 1)] : DictStrAny) ≠ [] :=
  ⟨rfl, by simp⟩

/-- C6 amended: Query construction and Query destruction are the two
operations that reset the shared buffer to empty; a field comparison
never empties it, and condition conjunction never empties a non-empty
buffer (conjunction with a boolean leaves it untouched). -/
theorem buffer_clearing_operations (q : MongoQuery) (b : DictStrAny) (f : QueryField)
    (v : Val) (c d : QueryCondition) (args : List QueryArg)
    (hb : b ≠ []) (hargs : ∀ a ∈ args, a.isValid = true) :
    (MongoQuery.delOp q b).2 = []
    ∧ (MongoQuery.init args b).2 = []
    ∧ (QueryField.eq f v b).2 ≠ []
    ∧ (QueryCondition.andOp c (.cond d) b).2 ≠ []
    ∧ (QueryCondition.andOp c (.boolean true) b).2 = b := by
  refine ⟨rfl, by simp [MongoQuery.init, checkArgs_of_valid args hargs], ?_, ?_, rfl⟩
  · obtain ⟨w, hw⟩ := QueryField.eq_snd_shape f v b
    rw [hw]
    exact dictSet_ne_nil b f.name w
  · exact dictUpdate_ne_nil d.toDict b hb

/-- Witness for the amended C6 at a one-entry buffer. -/
theorem buffer_clearing_operations_witness :
    ([("a", Val.vInt 1)] : DictStrAny) ≠ []
    ∧ (QueryField.eq ⟨"f", .str⟩ (.vInt 0) [("a", Val.vInt 1)]).2 ≠ []
    ∧ (MongoQuery.delOp ⟨[]⟩ [("a", Val.vInt 1)]).2 = [] :=
  ⟨by simp,
    (buffer_clearing_operations ⟨[]⟩ [("a", Val.vInt 1)] ⟨"f", .str⟩ (.vInt 0)
      ⟨[]⟩ ⟨[]⟩ [] (by simp) (by simp)).2.2.1,
    (buffer_clearing_operations ⟨[]⟩ [("a", Val.vInt 1)] ⟨"f", .str⟩ (.vInt 0)
      ⟨[]⟩ ⟨[]⟩ [] (by simp) (by simp)).1⟩

/-- Witness for C10: a failed construction with a string argument leaves
the one-entry buffer in place; the following valid construction
snapshots it. -/
theorem init_error_preserves_buffer_witness :
    QueryArg.invalid "str" ∈ [QueryArg.invalid "str"]
    ∧ (MongoQuery.init [QueryArg.invalid "str"] [("x", Val.vInt 5)]).2 = [("x", Val.vInt 5)]
    ∧ MongoQuery.init [] [("x", Val.vInt 5)] = (.ok ⟨[("x", Val.vInt 5)]⟩, []) :=
  ⟨List.mem_singleton.mpr rfl,
    (init_error_preserves_buffer [QueryArg.invalid "str"] [("x", Val.vInt 5)] "str"
      (List.mem_singleton.mpr rfl)).1,
    (init_error_preserves_buffer [QueryArg.invalid "str"] [("x", Val.vInt 5)] "str"
      (List.mem_singleton.mpr rfl)).2.2 [] (by simp)⟩

/-! ### Schema-binder lemmas and claim C7 -/

theorem attachFields_not_mem (fields : List (String × PyType))
    (attrs : List (String × QueryField)) (k : String)
    (h : k ∉ fields.map Prod.fst) :
    dictLookup (attachFields attrs fields) k = dictLookup attrs k := by
  induction fields generalizing attrs with
  | nil => rfl
  | cons fld rest ih =>
    simp only [List.map, List.mem_cons, not_or] at h
    show dictLookup (attachFields (dictSet attrs fld.1 ⟨fld.1, fld.2⟩) rest) k
      = dictLookup attrs k
    rw [ih (dictSet attrs fld.1 ⟨fld.1, fld.2⟩) h.2,
      dictLookup_dictSet_ne attrs _ (fun he => h.1 he.symm)]

theorem attachFields_mem (fields : List (String × PyType))
    (attrs : List (String × QueryField)) (k : String)
    (h : k ∈ fields.map Prod.fst) :
    ∃ qf, dictLookup (attachFields attrs fields) k = some qf ∧ qf.name = k := by
  induction fields generalizing attrs with
  | nil => simp at h
  | cons fld rest ih =>
    by_cases hr : k ∈ rest.map Prod.fst
    · exact ih (dictSet attrs fld.1 ⟨fld.1, fld.2⟩) hr
    · have hk : fld.1 = k := by
        simp only [List.map, List.mem_cons] at h
        rcases h with h | h
        · exact h.symm
        · exact absurd h hr
      refine ⟨⟨fld.1, fld.2⟩, ?_, hk⟩
      show dictLookup (attachFields (dictSet attrs fld.1 ⟨fld.1, fld.2⟩) rest) k
        = some ⟨fld.1, fld.2⟩
      rw [attachFields_not_mem rest (dictSet attrs fld.1 ⟨fld.1, fld.2⟩) k hr, ← hk]
      exact dictLookup_dictSet_eq attrs fld.1 ⟨fld.1, fld.2⟩

/-- C7 counterexample: binding is not "a new type identical to `R` with
one handle per declared field".  The handles are attached to the shared
metaclass object and the metaclass itself is returned, so binding a
second schema `{b: int}` after a first schema `{a: str}` yields an
attribute set that still carries the first schema's handle `a` — not the
attribute set `{b}` alone that a fresh `R`-identical type would have. -/
theorem metaclass_binding_leak_counterexample :
    metaNew ⟨[]⟩ [⟨true, [("a", PyType.str)]⟩] = .ok ⟨[("a", ⟨"a", PyType.str⟩)]⟩
    ∧ metaNew ⟨[("a", ⟨"a", PyType.str⟩)]⟩ [⟨true, [("b", PyType.int)]⟩]
        = .ok ⟨[("a", ⟨"a", PyType.str⟩), ("b", ⟨"b", PyType.int⟩)]⟩
    ∧ [("a", (⟨"a", PyType.str⟩ : QueryField)), ("b", ⟨"b", PyType.int⟩)]
        ≠ [("b", (⟨"b", PyType.int⟩ : QueryField))] :=
  ⟨rfl, rfl, by simp⟩

/-- C7 amended: the three `TypeError` cases (more than one base, zero
bases, sole base not a `BaseModel` subclass) hold as claimed; on success
the metaclass attaches one identically-named `QueryField` per declared
field of the base — but onto its own attribute set, which it returns, so
handles of previously bound schemas persist alongside. -/
theorem metaclass_binding (m : MetaState) (b : PyClass)
    (hb : b.isBaseModelSub = true) :
    (∀ b1 b2 rest, metaNew m (b1 :: b2 :: rest)
        = .error (.typeError "MongoModelMetaclass does not support multiple inheritance"))
    ∧ metaNew m []
        = .error (.typeError
            "The class with metaclass MongoModelMetaclass requires a base class that inherits from BaseModel")
    ∧ (∀ b', b'.isBaseModelSub = false → metaNew m [b']
        = .error (.typeError "The base class must inherit from BaseModel"))
    ∧ metaNew m [b] = .ok ⟨attachFields m.attrs b.fields⟩
    ∧ (∀ k, k ∈ b.fields.map Prod.fst →
        ∃ qf, dictLookup (attachFields m.attrs b.fields) k = some qf ∧ qf.name = k)
    ∧ (∀ k, k ∉ b.fields.map Prod.fst →
        dictLookup (attachFields m.attrs b.fields) k = dictLookup m.attrs k) := by
  refine ⟨?_, rfl, ?_, ?_, ?_, ?_⟩
  · intro b1 b2 rest
    have hlen : (b1 :: b2 :: rest).length > 1 := by
      simp only [List.length_cons]
      omega
    simp [metaNew, hlen]
  · intro b' hb'
    simp [metaNew, hb']
  · simp [metaNew, hb]
  · intro k hk
    exact attachFields_mem b.fields m.attrs k hk
  · intro k hk
    exact attachFields_not_mem b.fields m.attrs k hk

/-- Witness for the amended C7 at a fresh metaclass and a one-field
`BaseModel` schema. -/
theorem metaclass_binding_witness :
    (⟨true, [("a", PyType.str)]⟩ : PyClass).isBaseModelSub = true
    ∧ metaNew ⟨[]⟩ [⟨true, [("a", PyType.str)]⟩]
        = .ok ⟨attachFields [] [("a", PyType.str)]⟩ :=
  ⟨rfl, (metaclass_binding ⟨[]⟩ ⟨true, [("a", PyType.str)]⟩ rfl).2.2.2.1⟩

/-! ### Claim C4: snapshot and reset -/

/-- C4: a successful `MongoQuery` construction snapshots the shared
buffer and resets it: (0) the new instance holds the buffer's dict and
the class attribute is rebound to a fresh empty dict; (a) no later
operation of any kind ever changes the dict object a constructed query
snapshotted; (b) after a construction, an accumulation that touches no
key of the constructed query's snapshot yields a next-snapshot sharing no
key with it. -/
theorem query_snapshot_isolation (s : MState) (h : MInv s) :
    ((MState.step s .newQuery).queries = s.queries ++ [s.buf]
      ∧ (MState.step s .newQuery).buffer = [])
    ∧ (∀ ops r, r ∈ s.queries →
        heapGet (MState.run s ops).heap r = heapGet s.heap r)
    ∧ (∀ ops, (∀ o ∈ ops, o.isAccum = true) →
        (∀ k, k ∈ touchedAll ops → dictLookup (MState.buffer s) k = none) →
        ∀ k, dictLookup (MState.run (MState.step s .newQuery) ops).buffer k ≠ none →
          dictLookup (MState.buffer s) k = none) := by
  refine ⟨⟨rfl, ?_⟩, ?_, ?_⟩
  · show heapGet (s.heap ++ [[]]) s.heap.length = []
    exact heapGet_append_len s.heap []
  · intro ops r hr
    exact run_frame s ops r h (h.2 r hr)
  · intro ops haccum htouch k hk
    have hinv1 : MInv (MState.step s .newQuery) := MInv_step s .newQuery h
    have hbuf1 : (MState.step s .newQuery).buffer = [] := by
      show heapGet (s.heap ++ [[]]) s.heap.length = []
      exact heapGet_append_len s.heap []
    have hrun := run_accum (MState.step s .newQuery) ops hinv1 haccum
    rw [hrun.2, hbuf1] at hk
    rcases bufApplyList_keys ops [] k hk with h2 | h2
    · exact absurd rfl h2
    · exact htouch k h2

/-- Witness for C4 at a state holding one constructed query (snapshot
`{"a": 1}` at address 0) and a fresh buffer at address 1: a later
comparison on field `"b"` leaves the query's snapshot untouched. -/
theorem query_snapshot_isolation_witness :
    MInv ⟨[[("a", Val.vInt 1)], []], 1, [0]⟩
    ∧ heapGet (MState.run ⟨[[("a", Val.vInt 1)], []], 1, [0]⟩
        [.fieldEq ⟨"b", .str⟩ (.vInt 2)]).heap 0
      = heapGet [[("a", Val.vInt 1)], []] 0 :=
  ⟨⟨by simp, by simp⟩,
    (query_snapshot_isolation ⟨[[("a", Val.vInt 1)], []], 1, [0]⟩ ⟨by simp, by simp⟩).2.1
      [.fieldEq ⟨"b", .str⟩ (.vInt 2)] 0 (by simp)⟩
